import Mathlib

/-!
Verification of the roomtone signaling / media-relay server.

The development shallowly embeds the server-side TypeScript:
- `src/server/room.ts` (RoomState),
- `src/server/config.ts` / `server/media` (media packet framing),
- `server/auth` (`verifyJwt`),
- `server/index` (WebSocket message dispatch, media broadcast, entropy keepalive).

JS `Map`s are modelled as insertion-ordered association lists, Node `Buffer`s as
`List Nat` of byte values, and Node's UTF-8 / base64 string conversions as
executable codecs following the WHATWG decoding algorithm that V8 implements.
-/

namespace Roomtone

set_option maxRecDepth 40000

/-! ### JS `Map` model: insertion-ordered association lists -/

/-- `Map.get`: the value stored at key `k`, if present. -/
def mapGet {α β : Type} [DecidableEq α] (m : List (α × β)) (k : α) : Option β :=
  (m.find? (fun p => p.1 = k)).map (fun p => p.2)

/-- `Map.has`. -/
def mapHas {α β : Type} [DecidableEq α] (m : List (α × β)) (k : α) : Bool :=
  (mapGet m k).isSome

/-- `Map.set`: updates the value in place when the key exists (keeping its
insertion position), otherwise appends the new entry at the end. -/
def mapSet {α β : Type} [DecidableEq α] (m : List (α × β)) (k : α) (v : β) :
    List (α × β) :=
  if mapHas m k then m.map (fun p => if p.1 = k then (k, v) else p)
  else m ++ [(k, v)]

/-- `Map.delete`: removes the entry for `k` (if any). -/
def mapDelete {α β : Type} [DecidableEq α] (m : List (α × β)) (k : α) :
    List (α × β) :=
  m.filter (fun p => ¬ p.1 = k)

/-! ### Node `Buffer.from(s, "utf8")`: UTF-8 encoding of a string -/

/-- UTF-8 encoding of a single Unicode scalar value (Lean `Char`s are exactly
the scalar values, so this models how V8 encodes each code point of a
well-formed string). -/
def utf8EncodeChar (c : Char) : List Nat :=
  let n := c.toNat
  if n < 0x80 then [n]
  else if n < 0x800 then [0xC0 + n / 64, 0x80 + n % 64]
  else if n < 0x10000 then [0xE0 + n / 4096, 0x80 + n / 64 % 64, 0x80 + n % 64]
  else [0xF0 + n / 262144, 0x80 + n / 4096 % 64, 0x80 + n / 64 % 64, 0x80 + n % 64]

/-- `Buffer.from(s, "utf8")` as a byte list. -/
def bufferFromUtf8 (s : String) : List Nat :=
  s.data.flatMap utf8EncodeChar

/-! ### Node `buf.toString("utf8")`: lossy WHATWG UTF-8 decoding -/

/-- U+FFFD REPLACEMENT CHARACTER, emitted for invalid byte sequences. -/
def replChar : Char := Char.ofNat 0xFFFD

/-- For a lead byte `b ≥ 0x80`: `some (initial accumulator, lower and upper
bound for the first continuation byte, number of continuation bytes)` per the
WHATWG UTF-8 decoder, or `none` if `b` cannot start a sequence. -/
def utf8LeadInfo (b : Nat) : Option (Nat × Nat × Nat × Nat) :=
  if 0xC2 ≤ b ∧ b ≤ 0xDF then some (b - 0xC0, 0x80, 0xBF, 1)
  else if b = 0xE0 then some (0, 0xA0, 0xBF, 2)
  else if b = 0xED then some (0xD, 0x80, 0x9F, 2)
  else if 0xE1 ≤ b ∧ b ≤ 0xEF then some (b - 0xE0, 0x80, 0xBF, 2)
  else if b = 0xF0 then some (0, 0x90, 0xBF, 3)
  else if b = 0xF4 then some (4, 0x80, 0x8F, 3)
  else if 0xF1 ≤ b ∧ b ≤ 0xF3 then some (b - 0xF0, 0x80, 0xBF, 3)
  else none

/-- Consume `n` continuation bytes (the first constrained to `[lo, hi]`, the
rest to `[0x80, 0xBF]`), accumulating the code point.  On failure the offending
byte is left in the returned remainder, as the WHATWG decoder reprocesses it. -/
def utf8Cont (acc lo hi : Nat) : Nat → List Nat → Option Nat × List Nat
  | 0, bs => (some acc, bs)
  | _ + 1, [] => (none, [])
  | n + 1, b :: bs =>
    if lo ≤ b ∧ b ≤ hi then utf8Cont (acc * 64 + (b - 0x80)) 0x80 0xBF n bs
    else (none, b :: bs)

/-- Fuelled WHATWG UTF-8 decoding loop; one unit of fuel per decoded character
(each step consumes at least one byte, so `bytes.length` fuel suffices). -/
def utf8DecodeAux : Nat → List Nat → List Char
  | 0, _ => []
  | _ + 1, [] => []
  | fuel + 1, b :: bs =>
    if b ≤ 0x7F then Char.ofNat b :: utf8DecodeAux fuel bs
    else
      match utf8LeadInfo b with
      | none => replChar :: utf8DecodeAux fuel bs
      | some (acc, lo, hi, n) =>
        match utf8Cont acc lo hi n bs with
        | (some cp, rest) => Char.ofNat cp :: utf8DecodeAux fuel rest
        | (none, rest) => replChar :: utf8DecodeAux fuel rest

/-- `buf.toString("utf8")`. -/
def bufferToStringUtf8 (bytes : List Nat) : String :=
  ⟨utf8DecodeAux bytes.length bytes⟩

/-! ### Node `buf.toString("base64")` -/

/-- The standard base64 alphabet used by Node. -/
def base64Alphabet : String :=
  "ABCDEFGHIJKLMNOPQRSTUVWXYZabcdefghijklmnopqrstuvwxyz0123456789+/"

/-- The base64 digit for a 6-bit value. -/
def base64Digit (n : Nat) : Char := base64Alphabet.data.getD n '?'

/-- Base64-encode a byte list, 3-byte group by 3-byte group, with `=`
padding for a trailing group of 1 or 2 bytes. -/
def base64EncodeGroups : List Nat → List Char
  | [] => []
  | [b0] => [base64Digit (b0 / 4), base64Digit (b0 % 4 * 16), '=', '=']
  | [b0, b1] =>
    [base64Digit (b0 / 4), base64Digit (b0 % 4 * 16 + b1 / 16),
     base64Digit (b1 % 16 * 4), '=']
  | b0 :: b1 :: b2 :: rest =>
    base64Digit (b0 / 4) :: base64Digit (b0 % 4 * 16 + b1 / 16) ::
      base64Digit (b1 % 16 * 4 + b2 / 64) :: base64Digit (b2 % 64) ::
      base64EncodeGroups rest

/-- `buf.toString("base64")`. -/
def bufferToStringBase64 (bytes : List Nat) : String :=
  ⟨base64EncodeGroups bytes⟩

/-! ### `server/media` (`src/server/config.ts` lines 79–131): packet framing -/

def MEDIA_PACKET_VERSION : Nat := 1

def MAX_PEER_ID_BYTES : Nat := 120

structure MediaPacket where
  version : Nat
  peerId : String
  payload : List Nat
deriving DecidableEq

/-- `buildMediaPacket(peerId, payload)`.  The TypeScript throws on an empty or
over-long peer id and on an empty payload; the thrown cases are `none`. -/
def buildMediaPacket (peerId : String) (payload : List Nat) : Option (List Nat) :=
  if peerId = "" then none
  else
    let peerIdBytes := bufferFromUtf8 peerId
    if peerIdBytes.length = 0 ∨ MAX_PEER_ID_BYTES < peerIdBytes.length then none
    else if payload.length = 0 then none
    else some (MEDIA_PACKET_VERSION :: peerIdBytes.length :: (peerIdBytes ++ payload))

/-- `parseMediaPacket(data)`. -/
def parseMediaPacket (data : List Nat) : Option MediaPacket :=
  if data.length < 3 then none
  else
    let version := data.getD 0 0
    if version ≠ MEDIA_PACKET_VERSION then none
    else
      let idLength := data.getD 1 0
      if idLength = 0 ∨ MAX_PEER_ID_BYTES < idLength then none
      else
        let headerLength := 2 + idLength
        if data.length ≤ headerLength then none
        else
          let peerId := bufferToStringUtf8 ((data.drop 2).take idLength)
          if peerId = "" then none
          else some ⟨version, peerId, data.drop headerLength⟩

/-! ### `src/server/room.ts`: RoomState

The `RoomState` class wraps a `Map<string, string>` (participant id →
display name); its methods are modelled as functions of that map. -/

structure Participant where
  id : String
  name : String
deriving DecidableEq

/-- `RoomState.add(id, name)`: returns the created participant and the new
store. -/
def roomAdd (room : List (String × String)) (id name : String) :
    Participant × List (String × String) :=
  (⟨id, name⟩, mapSet room id name)

/-- `RoomState.remove(id)`.  The source reads
`const name = this.participants.get(id); if (!name) return undefined;` —
so a missing id *and* an empty stored name both return `undefined` without
deleting. -/
def roomRemove (room : List (String × String)) (id : String) :
    Option Participant × List (String × String) :=
  match mapGet room id with
  | none => (none, room)
  | some name =>
    if name = "" then (none, room)
    else (some ⟨id, name⟩, mapDelete room id)

/-- `RoomState.list()`. -/
def roomList (room : List (String × String)) : List Participant :=
  room.map (fun p => ⟨p.1, p.2⟩)

/-- `RoomState.count()` (`Map.size`; keys are unique in every reachable
store, so the entry-list length is the map size). -/
def roomCount (room : List (String × String)) : Nat :=
  room.length

/-- A call sequence against one `RoomState`. -/
inductive RoomOp where
  | add (id name : String)
  | remove (id : String)
deriving DecidableEq

def roomStep (room : List (String × String)) : RoomOp → List (String × String)
  | .add id name => (roomAdd room id name).2
  | .remove id => (roomRemove room id).2

/-- Run a call sequence against a fresh `RoomState`. -/
def runRoomOps (ops : List RoomOp) : List (String × String) :=
  ops.foldl roomStep []

/-- Modelled from the spec: the reference meaning of "ids currently added and
not since removed" — `add` inserts the id (if new, at the end), `remove`
removes it. -/
def specIdStep (ids : List String) : RoomOp → List String
  | .add id _ => if id ∈ ids then ids else ids ++ [id]
  | .remove id => ids.filter (fun x => x ≠ id)

/-- Modelled from the spec: the set of ids added and not since removed,
after a call sequence. -/
def specCurrentIds (ops : List RoomOp) : List String :=
  ops.foldl specIdStep []

/-! ### `server/auth` (part_005): `verifyJwt`

The token string is abstracted to the outcome of the parsing prelude
(`split(".")`, base64url-decode, `JSON.parse`), and the RSA step
`publicKeys.some((key) => verifier.verify(key, signature))` to a boolean
`signatureValid`; everything from the `alg` check on is modelled branch by
branch.  JSON numbers carried by `exp`/`nbf`/`iat` are modelled as integers
(`Option Int`; `none` means the field is absent or not a number, `!payload`
is folded into the payload option). -/

structure JoseHeader where
  alg : Option String
deriving DecidableEq

structure JwtPayload where
  exp : Option Int
  nbf : Option Int
  iat : Option Int
deriving DecidableEq

/-- The shape of `token` after `split(".")` and decoding. -/
inductive TokenShape where
  /-- `parts.length !== 3`. -/
  | badFormat
  /-- `JSON.parse` threw on the header or payload segment. -/
  | badJson
  /-- Both segments decoded; `none` models a falsy (`null`) value. -/
  | decoded (header : Option JoseHeader) (payload : Option JwtPayload)
deriving DecidableEq

structure VerifyResult where
  ok : Bool
  error : Option String
  claims : Option JwtPayload
deriving DecidableEq

/-- `payload.nbf > nowSeconds + clockSkewSeconds` (for a numeric `nbf`). -/
def nbfFuture (p : JwtPayload) (now skew : Int) : Bool :=
  match p.nbf with
  | some nbf => decide (now + skew < nbf)
  | none => false

/-- `payload.iat > nowSeconds + clockSkewSeconds` (for a numeric `iat`). -/
def iatFuture (p : JwtPayload) (now skew : Int) : Bool :=
  match p.iat with
  | some iat => decide (now + skew < iat)
  | none => false

/-- `verifyJwt(token, publicKeys, nowSeconds, clockSkewSeconds)`. -/
def verifyJwt (tok : TokenShape) (signatureValid : Bool)
    (nowSeconds clockSkewSeconds : Int) : VerifyResult :=
  match tok with
  | .badFormat => ⟨false, some "Token format invalid.", none⟩
  | .badJson => ⟨false, some "Token payload invalid.", none⟩
  | .decoded header payload =>
    match header with
    | none => ⟨false, some "Token algorithm not allowed.", none⟩
    | some h =>
      if h.alg ≠ some "RS256" then ⟨false, some "Token algorithm not allowed.", none⟩
      else
        match payload with
        | none => ⟨false, some "Token exp missing.", none⟩
        | some p =>
          match p.exp with
          | none => ⟨false, some "Token exp missing.", none⟩
          | some exp =>
            if exp ≤ nowSeconds - clockSkewSeconds then
              ⟨false, some "Token expired.", none⟩
            else if nbfFuture p nowSeconds clockSkewSeconds then
              ⟨false, some "Token not active.", none⟩
            else if iatFuture p nowSeconds clockSkewSeconds then
              ⟨false, some "Token issued in the future.", none⟩
            else if ¬ signatureValid then
              ⟨false, some "Token signature invalid.", none⟩
            else ⟨true, none, some p⟩

/-- The `alg` value the check `!header || header.alg !== "RS256"` sees. -/
def headerAlg (header : Option JoseHeader) : Option String :=
  match header with
  | none => none
  | some h => h.alg

/-! ### `server/index` (part_003): WebSocket dispatcher and media relay

Connections are identified by a socket id (`Nat`); `ready c = true` models
`readyState === WebSocket.OPEN`.  Outbound traffic is returned as an ordered
list of `(socket, message)` pairs; `closeFrame` records a `ws.close(code,
reason)` call. -/

/-- The process-wide configuration derived from the environment.
`mediaTransportWs = true` models `mediaTransport === "ws"`, `false` models
`"webrtc"` (the only other possible value). -/
structure Config where
  mediaTransportWs : Bool
  maxParticipants : Nat
  maxPayloadBytes : Nat

/-- An opaque JSON value (`message.data`), carried but never inspected. -/
structure JsonOpaque where
  raw : String
deriving DecidableEq

structure MediaPeer where
  id : String
  mimeType : String
deriving DecidableEq

/-- Outbound messages (`send`/`sendBinary` payloads and `ws.close` calls).
The `welcome` constructor omits the process-constant `iceServers`,
`iceTransportPolicy` and `mediaTransport` fields, which are attached
unchanged to every welcome. -/
inductive OutMsg where
  | errorMsg (message : String)
  | welcome (id : String) (participants : List Participant)
      (mediaPeers : List MediaPeer)
  | peerJoined (peer : Participant)
  | peerLeft (peerId : String)
  | signalMsg (fromId : String) (data : JsonOpaque)
  | mediaStartMsg (peerId : String) (mimeType : String)
  | mediaStopMsg (peerId : String)
  | entropy (bytes : Nat) (data : String)
  | closeFrame (code : Nat) (reason : String)
deriving DecidableEq

/-- The mutable server state: `room` (RoomState) plus the three maps held in
`server/index`. -/
structure ServerState where
  room : List (String × String)
  clientsById : List (String × Nat)
  clientsBySocket : List (Nat × Participant)
  mediaById : List (String × String)
deriving DecidableEq

/-- `send(ws, payload)`: drops the write when the socket is not OPEN. -/
def sendMsg (ready : Nat → Bool) (sock : Nat) (m : OutMsg) :
    List (Nat × OutMsg) :=
  if ready sock then [(sock, m)] else []

/-- `sendBinary(ws, payload)`. -/
def sendBinary (ready : Nat → Bool) (sock : Nat) (packet : List Nat) :
    List (Nat × List Nat) :=
  if ready sock then [(sock, packet)] else []

/-- `broadcast(payload, exceptId?)`: iterate `clientsById`, skipping
`exceptId`. -/
def broadcastMsg (clientsById : List (String × Nat)) (ready : Nat → Bool)
    (m : OutMsg) (exceptId : Option String) : List (Nat × OutMsg) :=
  clientsById.flatMap (fun p =>
    if some p.1 = exceptId then [] else sendMsg ready p.2 m)

/-- `broadcastMedia(senderId, payload)`: frame the packet, drop it when it
exceeds `WS_MAX_PAYLOAD`, else write it to every other client.  `none`
models the exception `buildMediaPacket` would throw. -/
def broadcastMedia (cfg : Config) (st : ServerState) (ready : Nat → Bool)
    (senderId : String) (payload : List Nat) : Option (List (Nat × List Nat)) :=
  match buildMediaPacket senderId payload with
  | none => none
  | some packet =>
    if cfg.maxPayloadBytes < packet.length then some []
    else some ((st.clientsById.filter (fun p => p.1 ≠ senderId)).flatMap
      (fun p => sendBinary ready p.2 packet))

/-- `listMediaPeers(exceptId)`. -/
def listMediaPeers (mediaById : List (String × String)) (exceptId : Option String) :
    List MediaPeer :=
  (mediaById.filter (fun p => ¬ some p.1 = exceptId)).map
    (fun p => ⟨p.1, p.2⟩)

/-- `normalizeMediaMimeType`'s regex `/^[a-z0-9]+\/[a-z0-9.+-]+/i`: one or
more ASCII alphanumerics, a slash, then at least one of `[a-z0-9.+-]`. -/
def mimeTailChar (c : Char) : Bool :=
  c.isAlphanum || c = '.' || c = '+' || c = '-'

def mimeSyntaxOk (s : String) : Bool :=
  let cs := s.data
  let head := cs.takeWhile Char.isAlphanum
  let rest := cs.dropWhile Char.isAlphanum
  decide (head ≠ []) &&
    match rest with
    | '/' :: c :: _ => mimeTailChar c
    | _ => false

/-- `normalizeMediaMimeType(value)`; `none` is the source's `null` (also for
a non-string value, which the model folds into `none` input). -/
def normalizeMediaMimeType (value : Option String) : Option String :=
  match value with
  | none => none
  | some s =>
    let trimmed := s.trim
    if trimmed = "" ∨ 120 < trimmed.length then none
    else if ¬ mimeSyntaxOk trimmed then none
    else some trimmed

/-- JS `String.prototype.trim()`: strip whitespace from both ends
(modelled with Lean's ASCII whitespace predicate over the character list). -/
def jsTrim (s : String) : String :=
  ⟨((s.data.dropWhile Char.isWhitespace).reverse.dropWhile
      Char.isWhitespace).reverse⟩

/-- JS `String.prototype.slice(0, n)` (by code units; code points in the
model). -/
def jsSlice (s : String) (n : Nat) : String :=
  ⟨s.data.take n⟩

/-- An inbound JSON text message as the dispatcher inspects it:
`tag` is `message.type` when that is a string (`none` otherwise), `name` is
`String(message.name ?? "")`, `mimeType` is `message.mimeType` when a string,
`toId` is `String(message.to ?? "")`, `data` is `message.data ?? {}`. -/
structure InMessage where
  tag : Option String
  name : String
  mimeType : Option String
  toId : String
  data : JsonOpaque
deriving DecidableEq

/-- The text branch of `ws.on("message")`: dispatch on `message.type`.
`freshId` models the `crypto.randomUUID()` drawn in the join branch.
Returns the new state and the ordered outbound traffic. -/
def handleText (cfg : Config) (freshId : String) (st : ServerState)
    (ready : Nat → Bool) (ws : Nat) (m : InMessage) :
    ServerState × List (Nat × OutMsg) :=
  if m.tag = some "join" then
    if mapHas st.clientsBySocket ws then (st, [])
    else
      let name := jsSlice (jsTrim m.name) 40
      if name = "" then (st, sendMsg ready ws (.errorMsg "Name is required."))
      else if cfg.maxParticipants ≤ roomCount st.room then
        (st, sendMsg ready ws (.errorMsg "Room is full.")
          ++ [(ws, .closeFrame 1008 "Room is full.")])
      else
        let participant : Participant := ⟨freshId, name⟩
        let room2 := (roomAdd st.room freshId name).2
        let clientsById2 := mapSet st.clientsById freshId ws
        let clientsBySocket2 := mapSet st.clientsBySocket ws participant
        let st2 : ServerState :=
          { st with room := room2, clientsById := clientsById2,
                    clientsBySocket := clientsBySocket2 }
        let participants := (roomList room2).filter (fun peer => peer.id ≠ freshId)
        (st2, sendMsg ready ws
            (.welcome freshId participants (listMediaPeers st.mediaById (some freshId)))
          ++ broadcastMsg clientsById2 ready (.peerJoined participant) (some freshId))
  else if m.tag = some "media-start" then
    if ¬ cfg.mediaTransportWs then
      (st, sendMsg ready ws (.errorMsg "Media transport is disabled."))
    else
      match mapGet st.clientsBySocket ws with
      | none => (st, sendMsg ready ws (.errorMsg "Join first."))
      | some sender =>
        match normalizeMediaMimeType m.mimeType with
        | none => (st, sendMsg ready ws (.errorMsg "Invalid media MIME type."))
        | some mt =>
          ({ st with mediaById := mapSet st.mediaById sender.id mt },
           broadcastMsg st.clientsById ready (.mediaStartMsg sender.id mt)
             (some sender.id))
  else if m.tag = some "media-stop" then
    match mapGet st.clientsBySocket ws with
    | none => (st, sendMsg ready ws (.errorMsg "Join first."))
    | some sender =>
      if mapHas st.mediaById sender.id then
        ({ st with mediaById := mapDelete st.mediaById sender.id },
         broadcastMsg st.clientsById ready (.mediaStopMsg sender.id)
           (some sender.id))
      else (st, [])
  else if m.tag = some "signal" then
    if cfg.mediaTransportWs then (st, [])
    else
      match mapGet st.clientsBySocket ws with
      | none => (st, sendMsg ready ws (.errorMsg "Join first."))
      | some sender =>
        match mapGet st.clientsById m.toId with
        | none => (st, sendMsg ready ws (.errorMsg "Peer is no longer available."))
        | some target => (st, sendMsg ready target (.signalMsg sender.id m.data))
  else (st, [])

/-- The binary branch of `ws.on("message")`.  `none` models an uncaught
exception (unreachable through this guard chain). -/
def handleBinary (cfg : Config) (st : ServerState) (ready : Nat → Bool)
    (ws : Nat) (payload : List Nat) : Option (List (Nat × List Nat)) :=
  if ¬ cfg.mediaTransportWs then some []
  else
    match mapGet st.clientsBySocket ws with
    | none => some []
    | some sender =>
      if ¬ mapHas st.mediaById sender.id then some []
      else if payload.length = 0 then some []
      else broadcastMedia cfg st ready sender.id payload

/-- The entropy keepalive payload `{type:"entropy", bytes: size, data:
crypto.randomBytes(size).toString("base64")}` emitted by `scheduleEntropy`,
as a function of the drawn size (`randomIntInclusive(128, 1024)`) and the
drawn bytes (`crypto.randomBytes(size)`, so `rnd.length = size`). -/
def scheduleEntropyMessage (size : Nat) (rnd : List Nat) : OutMsg :=
  .entropy size (bufferToStringBase64 rnd)

/-- The `bytes` field of an entropy message. -/
def entropyBytesField : OutMsg → Nat
  | .entropy b _ => b
  | _ => 0

/-- The length of the `data` field of an entropy message. -/
def entropyDataLength : OutMsg → Nat
  | .entropy _ d => d.length
  | _ => 0

/-- `true` when an `add` operation carries a non-empty display name (the
dispatcher only ever adds trimmed non-empty names). -/
def opNameOk : RoomOp → Bool
  | .add _ name => name ≠ ""
  | .remove _ => true

/-! ### UTF-8 codec lemmas -/

theorem utf8DecodeAux_nil (f : Nat) : utf8DecodeAux f [] = [] := by
  cases f <;> rfl

theorem utf8Cont_step (acc lo hi n b : Nat) (bs : List Nat)
    (h : lo ≤ b ∧ b ≤ hi) :
    utf8Cont acc lo hi (n + 1) (b :: bs) =
      utf8Cont (acc * 64 + (b - 0x80)) 0x80 0xBF n bs := by
  simp [utf8Cont, h]

theorem utf8DecodeAux_ascii (f b : Nat) (bs : List Nat) (h : b ≤ 0x7F) :
    utf8DecodeAux (f + 1) (b :: bs) = Char.ofNat b :: utf8DecodeAux f bs := by
  simp [utf8DecodeAux, h]

theorem utf8DecodeAux_lead (f b : Nat) (bs : List Nat) (hb : ¬ b ≤ 0x7F) :
    utf8DecodeAux (f + 1) (b :: bs) =
      match utf8LeadInfo b with
      | none => replChar :: utf8DecodeAux f bs
      | some (acc, lo, hi, n) =>
        match utf8Cont acc lo hi n bs with
        | (some cp, rest) => Char.ofNat cp :: utf8DecodeAux f rest
        | (none, rest) => replChar :: utf8DecodeAux f rest := by
  simp [utf8DecodeAux, hb]

theorem utf8LeadInfo_c2_df (b : Nat) (h1 : 0xC2 ≤ b) (h2 : b ≤ 0xDF) :
    utf8LeadInfo b = some (b - 0xC0, 0x80, 0xBF, 1) := by
  unfold utf8LeadInfo
  rw [if_pos ⟨h1, h2⟩]

theorem utf8LeadInfo_e1_ef (b : Nat) (h1 : 0xE1 ≤ b) (h2 : b ≤ 0xEF)
    (h3 : b ≠ 0xED) :
    utf8LeadInfo b = some (b - 0xE0, 0x80, 0xBF, 2) := by
  unfold utf8LeadInfo
  rw [if_neg (by omega), if_neg (by omega), if_neg h3, if_pos ⟨h1, h2⟩]

theorem utf8LeadInfo_f1_f3 (b : Nat) (h1 : 0xF1 ≤ b) (h2 : b ≤ 0xF3) :
    utf8LeadInfo b = some (b - 0xF0, 0x80, 0xBF, 3) := by
  unfold utf8LeadInfo
  rw [if_neg (by omega), if_neg (by omega), if_neg (by omega),
    if_neg (by omega), if_neg (by omega), if_neg (by omega), if_pos ⟨h1, h2⟩]

/-- Decoding the UTF-8 encoding of one character consumes exactly that
character's bytes and emits that character. -/
theorem utf8DecodeAux_encodeChar (c : Char) (rest : List Nat) (fuel : Nat) :
    utf8DecodeAux (fuel + 1) (utf8EncodeChar c ++ rest) =
      c :: utf8DecodeAux fuel rest := by
  have hv : c.toNat < 0xD800 ∨ (0xDFFF < c.toNat ∧ c.toNat < 0x110000) := c.valid
  have hofn : Char.ofNat c.toNat = c := Char.ofNat_toNat c
  by_cases h1 : c.toNat < 0x80
  · rw [show utf8EncodeChar c = [c.toNat] by simp [utf8EncodeChar, h1]]
    rw [List.cons_append, List.nil_append,
      utf8DecodeAux_ascii fuel c.toNat rest (by omega), hofn]
  by_cases h2 : c.toNat < 0x800
  · rw [show utf8EncodeChar c
        = [0xC0 + c.toNat / 64, 0x80 + c.toNat % 64] by
      simp [utf8EncodeChar, h1, h2]]
    have hm : c.toNat % 64 < 64 := Nat.mod_lt _ (by omega)
    have hd : 2 ≤ c.toNat / 64 ∧ c.toNat / 64 ≤ 31 := by omega
    simp only [List.cons_append, List.nil_append]
    rw [utf8DecodeAux_lead fuel _ _ (by omega),
      utf8LeadInfo_c2_df _ (by omega) (by omega)]
    simp only
    rw [utf8Cont_step _ _ _ _ _ _ ⟨by omega, by omega⟩]
    have hval : (0xC0 + c.toNat / 64 - 0xC0) * 64 + (0x80 + c.toNat % 64 - 0x80)
        = c.toNat := by omega
    rw [utf8Cont, hval]
    simp only [hofn]
  by_cases h3 : c.toNat < 0x10000
  · rw [show utf8EncodeChar c
        = [0xE0 + c.toNat / 4096, 0x80 + c.toNat / 64 % 64, 0x80 + c.toNat % 64] by
      simp [utf8EncodeChar, h1, h2, h3]]
    have hm1 : c.toNat / 64 % 64 < 64 := Nat.mod_lt _ (by omega)
    have hm0 : c.toNat % 64 < 64 := Nat.mod_lt _ (by omega)
    simp only [List.cons_append, List.nil_append]
    rw [utf8DecodeAux_lead fuel _ _ (by omega)]
    have hval : ((c.toNat / 4096) * 64 + (0x80 + c.toNat / 64 % 64 - 0x80)) * 64
        + (0x80 + c.toNat % 64 - 0x80) = c.toNat := by omega
    by_cases hA : c.toNat < 0x1000
    · rw [show 0xE0 + c.toNat / 4096 = 0xE0 by omega,
        show utf8LeadInfo 0xE0 = some (0, 0xA0, 0xBF, 2) from rfl]
      simp only
      rw [utf8Cont_step _ _ _ _ _ _ ⟨by omega, by omega⟩,
        utf8Cont_step _ _ _ _ _ _ ⟨by omega, by omega⟩, utf8Cont]
      rw [show (0 : Nat) = c.toNat / 4096 by omega, hval]
      simp only [hofn]
    by_cases hB : c.toNat < 0xD000
    · rw [utf8LeadInfo_e1_ef _ (by omega) (by omega) (by omega)]
      simp only
      rw [utf8Cont_step _ _ _ _ _ _ ⟨by omega, by omega⟩,
        utf8Cont_step _ _ _ _ _ _ ⟨by omega, by omega⟩, utf8Cont]
      rw [show 0xE0 + c.toNat / 4096 - 0xE0 = c.toNat / 4096 by omega, hval]
      simp only [hofn]
    by_cases hC : c.toNat ≤ 0xD7FF
    · rw [show 0xE0 + c.toNat / 4096 = 0xED by omega,
        show utf8LeadInfo 0xED = some (0xD, 0x80, 0x9F, 2) from rfl]
      simp only
      rw [utf8Cont_step _ _ _ _ _ _ ⟨by omega, by omega⟩,
        utf8Cont_step _ _ _ _ _ _ ⟨by omega, by omega⟩, utf8Cont]
      rw [show (0xD : Nat) = c.toNat / 4096 by omega, hval]
      simp only [hofn]
    · -- 0xE000 ≤ c.toNat ≤ 0xFFFF (surrogates are not valid chars)
      have hD : 0xE000 ≤ c.toNat := by omega
      rw [utf8LeadInfo_e1_ef _ (by omega) (by omega) (by omega)]
      simp only
      rw [utf8Cont_step _ _ _ _ _ _ ⟨by omega, by omega⟩,
        utf8Cont_step _ _ _ _ _ _ ⟨by omega, by omega⟩, utf8Cont]
      rw [show 0xE0 + c.toNat / 4096 - 0xE0 = c.toNat / 4096 by omega, hval]
      simp only [hofn]
  · -- four-byte encoding: 0x10000 ≤ c.toNat < 0x110000
    have h4 : c.toNat < 0x110000 := by omega
    rw [show utf8EncodeChar c
        = [0xF0 + c.toNat / 262144, 0x80 + c.toNat / 4096 % 64,
           0x80 + c.toNat / 64 % 64, 0x80 + c.toNat % 64] by
      simp [utf8EncodeChar, h1, h2, h3]]
    have hm2 : c.toNat / 4096 % 64 < 64 := Nat.mod_lt _ (by omega)
    have hm1 : c.toNat / 64 % 64 < 64 := Nat.mod_lt _ (by omega)
    have hm0 : c.toNat % 64 < 64 := Nat.mod_lt _ (by omega)
    simp only [List.cons_append, List.nil_append]
    rw [utf8DecodeAux_lead fuel _ _ (by omega)]
    have hval : (((c.toNat / 262144) * 64 + (0x80 + c.toNat / 4096 % 64 - 0x80)) * 64
        + (0x80 + c.toNat / 64 % 64 - 0x80)) * 64
        + (0x80 + c.toNat % 64 - 0x80) = c.toNat := by omega
    by_cases hA : c.toNat < 0x40000
    · rw [show 0xF0 + c.toNat / 262144 = 0xF0 by omega,
        show utf8LeadInfo 0xF0 = some (0, 0x90, 0xBF, 3) from rfl]
      simp only
      rw [utf8Cont_step _ _ _ _ _ _ ⟨by omega, by omega⟩,
        utf8Cont_step _ _ _ _ _ _ ⟨by omega, by omega⟩,
        utf8Cont_step _ _ _ _ _ _ ⟨by omega, by omega⟩, utf8Cont]
      rw [show (0 : Nat) = c.toNat / 262144 by omega, hval]
      simp only [hofn]
    by_cases hB : c.toNat < 0x100000
    · rw [utf8LeadInfo_f1_f3 _ (by omega) (by omega)]
      simp only
      rw [utf8Cont_step _ _ _ _ _ _ ⟨by omega, by omega⟩,
        utf8Cont_step _ _ _ _ _ _ ⟨by omega, by omega⟩,
        utf8Cont_step _ _ _ _ _ _ ⟨by omega, by omega⟩, utf8Cont]
      rw [show 0xF0 + c.toNat / 262144 - 0xF0 = c.toNat / 262144 by omega, hval]
      simp only [hofn]
    · rw [show 0xF0 + c.toNat / 262144 = 0xF4 by omega,
        show utf8LeadInfo 0xF4 = some (4, 0x80, 0x8F, 3) from rfl]
      simp only
      rw [utf8Cont_step _ _ _ _ _ _ ⟨by omega, by omega⟩,
        utf8Cont_step _ _ _ _ _ _ ⟨by omega, by omega⟩,
        utf8Cont_step _ _ _ _ _ _ ⟨by omega, by omega⟩, utf8Cont]
      rw [show (4 : Nat) = c.toNat / 262144 by omega, hval]
      simp only [hofn]

theorem utf8Cont_snd_length (n : Nat) : ∀ (acc lo hi : Nat) (bs : List Nat),
    (utf8Cont acc lo hi n bs).2.length ≤ bs.length := by
  induction n with
  | zero => intro acc lo hi bs; simp [utf8Cont]
  | succ m ih =>
    intro acc lo hi bs
    cases bs with
    | nil => simp [utf8Cont]
    | cons b bs' =>
      by_cases h : lo ≤ b ∧ b ≤ hi
      · rw [utf8Cont_step _ _ _ _ _ _ h]
        exact le_trans (ih _ _ _ bs') (by simp)
      · simp [utf8Cont, h]

/-- The decoder's result does not depend on the fuel once the fuel covers the
byte count. -/
theorem utf8DecodeAux_fuel (N : Nat) : ∀ (f1 f2 : Nat) (bs : List Nat),
    bs.length ≤ N → bs.length ≤ f1 → bs.length ≤ f2 →
    utf8DecodeAux f1 bs = utf8DecodeAux f2 bs := by
  induction N with
  | zero =>
    intro f1 f2 bs h _ _
    obtain rfl : bs = [] := List.length_eq_zero.mp (Nat.le_zero.mp h)
    rw [utf8DecodeAux_nil, utf8DecodeAux_nil]
  | succ N ih =>
    intro f1 f2 bs hN h1 h2
    cases bs with
    | nil => rw [utf8DecodeAux_nil, utf8DecodeAux_nil]
    | cons b bs' =>
      have hlen : bs'.length + 1 ≤ N + 1 := by simpa using hN
      obtain ⟨g1, rfl⟩ : ∃ g, f1 = g + 1 := ⟨f1 - 1, by simp at h1; omega⟩
      obtain ⟨g2, rfl⟩ : ∃ g, f2 = g + 1 := ⟨f2 - 1, by simp at h2; omega⟩
      have h1' : bs'.length ≤ g1 := by simp at h1; omega
      have h2' : bs'.length ≤ g2 := by simp at h2; omega
      by_cases hb : b ≤ 0x7F
      · rw [utf8DecodeAux_ascii _ _ _ hb, utf8DecodeAux_ascii _ _ _ hb,
          ih g1 g2 bs' (by omega) h1' h2']
      · rw [utf8DecodeAux_lead _ _ _ hb, utf8DecodeAux_lead _ _ _ hb]
        cases hli : utf8LeadInfo b with
        | none =>
          simp only
          rw [ih g1 g2 bs' (by omega) h1' h2']
        | some t =>
          obtain ⟨acc, lo, hi, n⟩ := t
          have hrest := utf8Cont_snd_length n acc lo hi bs'
          rcases hc : utf8Cont acc lo hi n bs' with ⟨cp, rest⟩
          rw [hc] at hrest
          simp only [hc]
          have hrN : rest.length ≤ N := by
            simp only at hrest
            omega
          cases cp with
          | none =>
            simp only
            rw [ih g1 g2 rest hrN (le_trans hrest h1') (le_trans hrest h2')]
          | some v =>
            simp only
            rw [ih g1 g2 rest hrN (le_trans hrest h1') (le_trans hrest h2')]

theorem utf8EncodeChar_length_pos (c : Char) : 1 ≤ (utf8EncodeChar c).length := by
  by_cases h1 : c.toNat < 0x80
  · simp [utf8EncodeChar, h1]
  by_cases h2 : c.toNat < 0x800
  · simp [utf8EncodeChar, h1, h2]
  by_cases h3 : c.toNat < 0x10000
  · simp [utf8EncodeChar, h1, h2, h3]
  · simp [utf8EncodeChar, h1, h2, h3]

/-- Round trip at the level of character lists. -/
theorem utf8Decode_flatMap_encode (cs : List Char) :
    utf8DecodeAux (cs.flatMap utf8EncodeChar).length (cs.flatMap utf8EncodeChar)
      = cs := by
  induction cs with
  | nil => simp [utf8DecodeAux_nil]
  | cons c cs' ih =>
    have hk := utf8EncodeChar_length_pos c
    rw [List.flatMap_cons]
    have hsum : (utf8EncodeChar c ++ cs'.flatMap utf8EncodeChar).length
        = ((utf8EncodeChar c).length - 1 + (cs'.flatMap utf8EncodeChar).length) + 1 := by
      simp only [List.length_append]
      omega
    rw [hsum, utf8DecodeAux_encodeChar c _ _]
    congr 1
    rw [utf8DecodeAux_fuel ((utf8EncodeChar c).length - 1
        + (cs'.flatMap utf8EncodeChar).length) _ (cs'.flatMap utf8EncodeChar).length
        (cs'.flatMap utf8EncodeChar) (by omega) (by omega) (le_refl _)]
    exact ih

/-- `buf.toString("utf8")` inverts `Buffer.from(s, "utf8")` on well-formed
strings. -/
theorem bufferToStringUtf8_bufferFromUtf8 (s : String) :
    bufferToStringUtf8 (bufferFromUtf8 s) = s := by
  apply String.ext
  exact utf8Decode_flatMap_encode s.data

theorem bufferFromUtf8_nil_iff (s : String) : bufferFromUtf8 s = [] ↔ s = "" := by
  constructor
  · intro h
    have hd : s.data = [] := by
      by_contra hne
      obtain ⟨c, cs, hs⟩ : ∃ c cs, s.data = c :: cs := by
        cases hx : s.data with
        | nil => exact absurd hx hne
        | cons c cs => exact ⟨c, cs, rfl⟩
      have hflat : bufferFromUtf8 s = utf8EncodeChar c ++ cs.flatMap utf8EncodeChar := by
        unfold bufferFromUtf8
        rw [hs, List.flatMap_cons]
      rw [h] at hflat
      have h2 := List.append_eq_nil.mp hflat.symm
      have hk := utf8EncodeChar_length_pos c
      rw [h2.1] at hk
      simp at hk
    apply String.ext
    rw [hd]
  · intro h
    subst h
    rfl

/-- Length of a base64 encoding: four characters per started 3-byte group. -/
theorem base64EncodeGroups_length (bs : List Nat) :
    (base64EncodeGroups bs).length = 4 * ((bs.length + 2) / 3) := by
  induction bs using base64EncodeGroups.induct with
  | case1 => rfl
  | case2 b0 => simp [base64EncodeGroups]
  | case3 b0 b1 => simp [base64EncodeGroups]
  | case4 b0 b1 b2 rest ih =>
    simp only [base64EncodeGroups, List.length_cons, ih]
    omega

/-! ### Claim C4: expiry check of `verifyJwt` -/

/-- Claim C4: `verifyJwt` rejects a token as expired exactly when
`exp ≤ now - clockSkew`, for any decoded token whose header algorithm is
`RS256` and whose payload carries a numeric `exp` — in particular, with skew
0 a token with `exp = now - 1` fails with the "expired" reason, with skew 5 a
token with `exp = now - 5` still fails, and one with `exp = now - 4` passes
the expiry check. -/
theorem c4_expiry_iff (header : Option JoseHeader) (p : JwtPayload) (e : Int)
    (signatureValid : Bool) (now skew : Int)
    (halg : headerAlg header = some "RS256") (hexp : p.exp = some e) :
    ((verifyJwt (.decoded header (some p)) signatureValid now skew).error
      = some "Token expired." ↔ e ≤ now - skew) := by
  obtain ⟨h, rfl⟩ : ∃ h, header = some h := by
    cases header with
    | none => simp [headerAlg] at halg
    | some h => exact ⟨h, rfl⟩
  have halg' : h.alg = some "RS256" := by simpa [headerAlg] using halg
  simp only [verifyJwt, halg', ne_eq, not_true_eq_false, if_false, hexp]
  constructor
  · intro hres
    by_contra hlt
    rw [if_neg hlt] at hres
    split_ifs at hres <;> simp_all
  · intro hle
    rw [if_pos hle]

/-- Witness for C4 at `now = 100`, skew 0, `exp = 99 = now - 1`. -/
theorem c4_expiry_iff_witness :
    (verifyJwt (.decoded (some ⟨some "RS256"⟩) (some ⟨some 99, none, none⟩))
      true 100 0).error = some "Token expired." :=
  (c4_expiry_iff (some ⟨some "RS256"⟩) ⟨some 99, none, none⟩ 99 true 100 0
    rfl rfl).mpr (by decide)

/-! ### Claim C9: non-RS256 algorithms are rejected before any signature use -/

/-- Claim C9: whenever the decoded JOSE header does not carry
`alg = "RS256"` (including a falsy header and a non-string `alg`), `verifyJwt`
fails with "Token algorithm not allowed." — for every signature outcome and
key set (the result does not depend on `signatureValid`, which models
`publicKeys.some(...)`), so no signature verification can influence it. -/
theorem c9_alg_reject (header : Option JoseHeader) (payload : Option JwtPayload)
    (signatureValid : Bool) (now skew : Int)
    (halg : headerAlg header ≠ some "RS256") :
    verifyJwt (.decoded header payload) signatureValid now skew
      = ⟨false, some "Token algorithm not allowed.", none⟩ := by
  cases header with
  | none => rfl
  | some h =>
    have hne : h.alg ≠ some "RS256" := by simpa [headerAlg] using halg
    simp [verifyJwt, hne]

/-- Witness for C9 with an `HS256` header. -/
theorem c9_alg_reject_witness :
    verifyJwt (.decoded (some ⟨some "HS256"⟩) (some ⟨some 100, none, none⟩))
      true 0 0 = ⟨false, some "Token algorithm not allowed.", none⟩ :=
  c9_alg_reject (some ⟨some "HS256"⟩) (some ⟨some 100, none, none⟩) true 0 0
    (by decide)

/-! ### Claim C6: the entropy keepalive payload -/

/-- Counterexample to C6 as stated: for the draw `size = 128` (with
`crypto.randomBytes` returning 128 bytes, here zeros), the emitted message has
`bytes = 128` but its `data` string has 172 characters — the base64 encoding
of 128 bytes — not 128. -/
theorem c6_counterexample :
    entropyBytesField (scheduleEntropyMessage 128 (List.replicate 128 0)) = 128 ∧
    (List.replicate 128 (0 : Nat)).length = 128 ∧
    entropyDataLength (scheduleEntropyMessage 128 (List.replicate 128 0)) = 172 ∧
    entropyDataLength (scheduleEntropyMessage 128 (List.replicate 128 0)) ≠
      entropyBytesField (scheduleEntropyMessage 128 (List.replicate 128 0)) := by
  refine ⟨rfl, by decide, ?_, ?_⟩ <;> decide

/-- Claim C6 (amended): every entropy keepalive message has `bytes` drawn
from [128, 1024] and `data` equal to the base64 encoding of that many random
bytes, so its `data` length is `4 * ⌈bytes / 3⌉` — between 172 and 1368, and
never equal to `bytes`. -/
theorem c6_entropy_fields (size : Nat) (rnd : List Nat)
    (h1 : 128 ≤ size) (h2 : size ≤ 1024) (hlen : rnd.length = size) :
    entropyBytesField (scheduleEntropyMessage size rnd) = size ∧
    entropyDataLength (scheduleEntropyMessage size rnd) = 4 * ((size + 2) / 3) ∧
    172 ≤ entropyDataLength (scheduleEntropyMessage size rnd) ∧
    entropyDataLength (scheduleEntropyMessage size rnd) ≤ 1368 ∧
    entropyDataLength (scheduleEntropyMessage size rnd) ≠ size := by
  have hdata : entropyDataLength (scheduleEntropyMessage size rnd)
      = 4 * ((size + 2) / 3) := by
    show (bufferToStringBase64 rnd).length = _
    show (base64EncodeGroups rnd).length = _
    rw [base64EncodeGroups_length, hlen]
  refine ⟨rfl, hdata, ?_, ?_, ?_⟩ <;> rw [hdata] <;> omega

/-- Witness for C6 (amended) at `size = 300`. -/
theorem c6_entropy_fields_witness :
    entropyBytesField (scheduleEntropyMessage 300 (List.replicate 300 5)) = 300 ∧
    entropyDataLength (scheduleEntropyMessage 300 (List.replicate 300 5))
      = 4 * ((300 + 2) / 3) ∧
    172 ≤ entropyDataLength (scheduleEntropyMessage 300 (List.replicate 300 5)) ∧
    entropyDataLength (scheduleEntropyMessage 300 (List.replicate 300 5)) ≤ 1368 ∧
    entropyDataLength (scheduleEntropyMessage 300 (List.replicate 300 5)) ≠ 300 :=
  c6_entropy_fields 300 (List.replicate 300 5) (by decide) (by decide) (by decide)

/-! ### Claim C7: unrecognized message tags -/

/-- Counterexample to C7 as stated: a well-formed JSON message with the
unrecognized tag `"ping"`, sent on a joined connection, produces no outbound
message at all (in particular no `error` reply) and leaves the state
unchanged — the dispatcher falls through every branch silently. -/
theorem c7_counterexample :
    handleText ⟨true, 10, 1048576⟩ "fresh"
      ⟨[("a", "A")], [("a", 0)], [(0, ⟨"a", "A"⟩)], []⟩
      (fun _ => true) 0 ⟨some "ping", "", none, "", ⟨""⟩⟩
      = (⟨[("a", "A")], [("a", 0)], [(0, ⟨"a", "A"⟩)], []⟩, []) := by
  decide

/-- Claim C7 (amended): a well-formed JSON text message whose type tag is not
one of `join`, `media-start`, `media-stop`, `signal` is silently ignored —
no reply is sent, the state is unchanged, and the connection stays open. -/
theorem c7_unknown_tag_ignored (cfg : Config) (freshId : String)
    (st : ServerState) (ready : Nat → Bool) (ws : Nat) (m : InMessage)
    (h1 : m.tag ≠ some "join") (h2 : m.tag ≠ some "media-start")
    (h3 : m.tag ≠ some "media-stop") (h4 : m.tag ≠ some "signal") :
    handleText cfg freshId st ready ws m = (st, []) := by
  unfold handleText
  rw [if_neg h1, if_neg h2, if_neg h3, if_neg h4]

/-- Witness for C7 (amended): a message whose `type` is not a string. -/
theorem c7_unknown_tag_ignored_witness :
    handleText ⟨true, 10, 1048576⟩ "fresh"
      ⟨[("a", "A")], [("a", 0)], [(0, ⟨"a", "A"⟩)], []⟩
      (fun _ => true) 0 ⟨none, "", none, "", ⟨""⟩⟩
      = (⟨[("a", "A")], [("a", 0)], [(0, ⟨"a", "A"⟩)], []⟩, []) :=
  c7_unknown_tag_ignored ⟨true, 10, 1048576⟩ "fresh"
    ⟨[("a", "A")], [("a", 0)], [(0, ⟨"a", "A"⟩)], []⟩
    (fun _ => true) 0 ⟨none, "", none, "", ⟨""⟩⟩
    (by decide) (by decide) (by decide) (by decide)

/-! ### Claim C8: join on a full room -/

/-- Claim C8: a not-yet-joined connection sending a join message (with a name
that survives trimming) while `Room.count() ≥ MAX_PARTICIPANTS` receives the
`error` reply "Room is full." followed by a close with code 1008, and the
server state — in particular the room — is unchanged. -/
theorem c8_room_full (cfg : Config) (freshId : String) (st : ServerState)
    (ready : Nat → Bool) (ws : Nat) (m : InMessage)
    (htag : m.tag = some "join")
    (hnotjoined : mapHas st.clientsBySocket ws = false)
    (hname : jsSlice (jsTrim m.name) 40 ≠ "")
    (hfull : cfg.maxParticipants ≤ roomCount st.room)
    (hready : ready ws = true) :
    handleText cfg freshId st ready ws m
      = (st, [(ws, .errorMsg "Room is full."),
              (ws, .closeFrame 1008 "Room is full.")]) := by
  unfold handleText
  rw [if_pos htag, if_neg (by rw [hnotjoined]; exact Bool.false_ne_true),
    if_neg hname, if_pos hfull]
  simp [sendMsg, hready]

/-- Witness for C8: `MAX_PARTICIPANTS = 2`, a full two-person room, a third
connection joining as "Carol". -/
theorem c8_room_full_witness :
    handleText ⟨true, 2, 1048576⟩ "fresh"
      ⟨[("x", "X"), ("y", "Y")], [("x", 0), ("y", 1)],
       [(0, ⟨"x", "X"⟩), (1, ⟨"y", "Y"⟩)], []⟩
      (fun _ => true) 5 ⟨some "join", "Carol", none, "", ⟨""⟩⟩
      = (⟨[("x", "X"), ("y", "Y")], [("x", 0), ("y", 1)],
          [(0, ⟨"x", "X"⟩), (1, ⟨"y", "Y"⟩)], []⟩,
         [(5, .errorMsg "Room is full."),
          (5, .closeFrame 1008 "Room is full.")]) :=
  c8_room_full ⟨true, 2, 1048576⟩ "fresh"
    ⟨[("x", "X"), ("y", "Y")], [("x", 0), ("y", 1)],
     [(0, ⟨"x", "X"⟩), (1, ⟨"y", "Y"⟩)], []⟩
    (fun _ => true) 5 ⟨some "join", "Carol", none, "", ⟨""⟩⟩
    rfl (by decide) (by decide) (by decide) rfl

/-! ### Claim C3: `decode` totality and rejection cases -/

/-- Claim C3: `parseMediaPacket` is total — on every input buffer it
evaluates to either `none` or a packet (it is a function into `Option`, so it
never throws) — and it returns `none` whenever the version byte is wrong, the
header is truncated (fewer than 3 bytes), the id-length field is zero, or the
id length exceeds the bytes remaining after the 2-byte header. -/
theorem c3_decode_none_cases (data : List Nat) :
    (parseMediaPacket data = none ∨ ∃ pkt, parseMediaPacket data = some pkt) ∧
    (data.getD 0 0 ≠ MEDIA_PACKET_VERSION → parseMediaPacket data = none) ∧
    (data.length < 3 → parseMediaPacket data = none) ∧
    (data.getD 1 0 = 0 → parseMediaPacket data = none) ∧
    (data.length - 2 < data.getD 1 0 → parseMediaPacket data = none) := by
  refine ⟨?_, ?_, ?_, ?_, ?_⟩
  · cases h : parseMediaPacket data with
    | none => exact Or.inl rfl
    | some pkt => exact Or.inr ⟨pkt, rfl⟩
  · intro h
    simp only [parseMediaPacket]
    split_ifs <;> simp_all
  · intro h
    simp only [parseMediaPacket]
    split_ifs
    simp_all
  · intro h
    simp only [parseMediaPacket]
    split_ifs <;> simp_all
  · intro h
    simp only [parseMediaPacket]
    split_ifs <;> first | rfl | omega

/-- Witness for C3: a wrong version byte, a truncated header, a zero id
length, and an id length overrunning the buffer, at concrete buffers. -/
theorem c3_decode_none_cases_witness :
    parseMediaPacket [2, 1, 97, 7] = none ∧
    parseMediaPacket [1, 1] = none ∧
    parseMediaPacket [1, 0, 97, 7] = none ∧
    parseMediaPacket [1, 5, 97, 7] = none :=
  ⟨(c3_decode_none_cases [2, 1, 97, 7]).2.1 (by decide),
   (c3_decode_none_cases [1, 1]).2.2.1 (by decide),
   (c3_decode_none_cases [1, 0, 97, 7]).2.2.2.1 (by decide),
   (c3_decode_none_cases [1, 5, 97, 7]).2.2.2.2 (by decide)⟩

/-! ### Claim C10: further rejection cases and what a decoded packet satisfies -/

/-- Counterexample to the last part of C10 as stated: the packet
`[1, 41, 0xFF × 41, 0]` decodes successfully, but its `peerId` string —
produced by Node's lossy UTF-8 decoding of 41 invalid bytes — consists of 41
replacement characters whose UTF-8 encoding is 123 bytes, exceeding 120. -/
theorem c10_counterexample :
    (parseMediaPacket (1 :: 41 :: (List.replicate 41 0xFF ++ [0]))).isSome = true ∧
    (parseMediaPacket (1 :: 41 :: (List.replicate 41 0xFF ++ [0]))).map
      (fun p => (bufferFromUtf8 p.peerId).length) = some 123 ∧
    ¬ 123 ≤ 120 := by
  refine ⟨?_, ?_, by decide⟩ <;> decide

/-- Claim C10 (amended): `parseMediaPacket` also returns `none` when the
id-length byte exceeds 120 and when no payload byte follows the header; every
successfully decoded packet therefore has an id field of 1–120 bytes on the
wire, a non-empty `peerId` string, and a non-empty payload (the `peerId`'s
UTF-8 re-encoding can exceed 120 bytes when the id field is not valid
UTF-8). -/
theorem c10_decode_bounds (data : List Nat) :
    (120 < data.getD 1 0 → parseMediaPacket data = none) ∧
    (data.length = 2 + data.getD 1 0 → parseMediaPacket data = none) ∧
    (∀ pkt, parseMediaPacket data = some pkt →
      pkt.peerId ≠ "" ∧ pkt.payload ≠ [] ∧
      1 ≤ data.getD 1 0 ∧ data.getD 1 0 ≤ 120) := by
  refine ⟨?_, ?_, ?_⟩
  · intro h
    simp only [parseMediaPacket]
    split_ifs <;> first | rfl | (simp only [MAX_PEER_ID_BYTES] at *; omega)
  · intro h
    simp only [parseMediaPacket]
    split_ifs <;> first | rfl | omega
  · intro pkt h
    simp only [parseMediaPacket] at h
    split_ifs at h with h1 h2 h3 h4 h5
    rw [Option.some_inj] at h
    subst h
    simp only [MAX_PEER_ID_BYTES] at h3
    refine ⟨h5, ?_, by omega, by omega⟩
    intro hnil
    have := congrArg List.length hnil
    simp only [List.length_drop, List.length_nil] at this
    omega

/-- Witness for C10 (amended): an oversized id length, a header with no
payload byte, and the guarantees at a decoded packet. -/
theorem c10_decode_bounds_witness :
    parseMediaPacket (1 :: 121 :: List.replicate 125 7) = none ∧
    parseMediaPacket [1, 1, 97] = none ∧
    ((⟨1, "a", [7]⟩ : MediaPacket).peerId ≠ "" ∧
     (⟨1, "a", [7]⟩ : MediaPacket).payload ≠ [] ∧
     1 ≤ ([1, 1, 97, 7] : List Nat).getD 1 0 ∧
     ([1, 1, 97, 7] : List Nat).getD 1 0 ≤ 120) :=
  ⟨(c10_decode_bounds (1 :: 121 :: List.replicate 125 7)).1 (by decide),
   (c10_decode_bounds [1, 1, 97]).2.1 (by decide),
   (c10_decode_bounds [1, 1, 97, 7]).2.2 ⟨1, "a", [7]⟩ (by decide)⟩

/-! ### Claim C2: encode/decode round trip -/

/-- Claim C2: for every string id whose UTF-8 encoding has between 1 and 120
bytes and every non-empty payload, `buildMediaPacket` succeeds and
`parseMediaPacket` of the produced packet yields exactly the version-1 packet
with that peer id and payload. -/
theorem c2_roundtrip (id : String) (payload : List Nat)
    (h1 : 1 ≤ (bufferFromUtf8 id).length)
    (h2 : (bufferFromUtf8 id).length ≤ 120)
    (h3 : payload ≠ []) :
    ∃ packet, buildMediaPacket id payload = some packet ∧
      parseMediaPacket packet = some ⟨MEDIA_PACKET_VERSION, id, payload⟩ := by
  have hid : id ≠ "" := by
    intro h
    rw [h] at h1
    simp [bufferFromUtf8] at h1
  have hplen : ¬ payload.length = 0 := by
    simpa [List.length_eq_zero] using h3
  have hbuild : buildMediaPacket id payload
      = some (MEDIA_PACKET_VERSION :: (bufferFromUtf8 id).length
          :: (bufferFromUtf8 id ++ payload)) := by
    simp only [buildMediaPacket]
    rw [if_neg hid,
      if_neg (by simp only [MAX_PEER_ID_BYTES]; omega :
        ¬ ((bufferFromUtf8 id).length = 0 ∨
           MAX_PEER_ID_BYTES < (bufferFromUtf8 id).length)),
      if_neg hplen]
  refine ⟨_, hbuild, ?_⟩
  have hlen : (MEDIA_PACKET_VERSION :: (bufferFromUtf8 id).length
      :: (bufferFromUtf8 id ++ payload)).length
      = 2 + (bufferFromUtf8 id).length + payload.length := by
    simp [List.length_append]
    omega
  have hget0 : (MEDIA_PACKET_VERSION :: (bufferFromUtf8 id).length
      :: (bufferFromUtf8 id ++ payload)).getD 0 0 = MEDIA_PACKET_VERSION := rfl
  have hget1 : (MEDIA_PACKET_VERSION :: (bufferFromUtf8 id).length
      :: (bufferFromUtf8 id ++ payload)).getD 1 0
      = (bufferFromUtf8 id).length := rfl
  simp only [parseMediaPacket, hget0, hget1, hlen]
  rw [if_neg (by omega), if_neg (by simp),
    if_neg (by simp only [MAX_PEER_ID_BYTES]; omega), if_neg (by omega)]
  have hdrop2 : (MEDIA_PACKET_VERSION :: (bufferFromUtf8 id).length
      :: (bufferFromUtf8 id ++ payload)).drop 2 = bufferFromUtf8 id ++ payload := rfl
  rw [hdrop2, List.take_left, bufferToStringUtf8_bufferFromUtf8, if_neg hid]
  have hdropAll : (MEDIA_PACKET_VERSION :: (bufferFromUtf8 id).length
      :: (bufferFromUtf8 id ++ payload)).drop (2 + (bufferFromUtf8 id).length)
      = payload := by
    have : (2 + (bufferFromUtf8 id).length) = (bufferFromUtf8 id).length + 2 := by
      omega
    rw [this]
    show (bufferFromUtf8 id ++ payload).drop ((bufferFromUtf8 id).length) = payload
    exact List.drop_left _ _
  rw [hdropAll]

/-- Witness for C2 at `id = "ab"`, `payload = [1, 2]`. -/
theorem c2_roundtrip_witness :
    ∃ packet, buildMediaPacket "ab" [1, 2] = some packet ∧
      parseMediaPacket packet = some ⟨MEDIA_PACKET_VERSION, "ab", [1, 2]⟩ :=
  c2_roundtrip "ab" [1, 2] (by decide) (by decide) (by decide)

/-! ### Association-list lemmas for the `Map` model -/

theorem mapGet_cons {α β : Type} [DecidableEq α] (p : α × β)
    (m : List (α × β)) (k : α) :
    mapGet (p :: m) k = if p.1 = k then some p.2 else mapGet m k := by
  by_cases h : p.1 = k
  · simp [mapGet, List.find?_cons_of_pos, h]
  · simp [mapGet, List.find?_cons_of_neg, h]

theorem mapGet_eq_none_iff {α β : Type} [DecidableEq α]
    (m : List (α × β)) (k : α) :
    mapGet m k = none ↔ ∀ p ∈ m, p.1 ≠ k := by
  induction m with
  | nil => simp [mapGet]
  | cons p m ih =>
    rw [mapGet_cons]
    by_cases h : p.1 = k <;> simp [h, ih]

theorem mapGet_eq_some_mem {α β : Type} [DecidableEq α]
    {m : List (α × β)} {k : α} {v : β} (h : mapGet m k = some v) :
    (k, v) ∈ m := by
  induction m with
  | nil => simp [mapGet] at h
  | cons p m ih =>
    obtain ⟨a, b⟩ := p
    rw [mapGet_cons] at h
    by_cases hp : a = k
    · simp only at hp
      rw [if_pos hp, Option.some_inj] at h
      simp only at h
      subst hp
      subst h
      exact List.mem_cons_self _ _
    · rw [if_neg hp] at h
      exact List.mem_cons_of_mem _ (ih h)

theorem mapHas_iff {α β : Type} [DecidableEq α] (m : List (α × β)) (k : α) :
    mapHas m k = true ↔ k ∈ m.map Prod.fst := by
  induction m with
  | nil => simp [mapHas, mapGet]
  | cons p m ih =>
    simp only [mapHas, mapGet_cons, List.map_cons, List.mem_cons]
    by_cases h : p.1 = k
    · simp [h]
    · rw [if_neg h]
      constructor
      · intro hs
        exact Or.inr (ih.mp hs)
      · intro hk
        rcases hk with hk | hk
        · exact absurd hk.symm h
        · exact ih.mpr hk

theorem mapSet_map_fst {α β : Type} [DecidableEq α] (m : List (α × β))
    (k : α) (v : β) :
    (mapSet m k v).map Prod.fst
      = if k ∈ m.map Prod.fst then m.map Prod.fst
        else m.map Prod.fst ++ [k] := by
  unfold mapSet
  by_cases h : mapHas m k
  · rw [if_pos h, if_pos ((mapHas_iff m k).mp h), List.map_map]
    have hf : (Prod.fst ∘ fun p : α × β => if p.1 = k then (k, v) else p)
        = Prod.fst := by
      funext p
      by_cases hp : p.1 = k
      · simp [hp]
      · simp [hp]
    rw [hf]
  · rw [if_neg h, if_neg (fun hm => h ((mapHas_iff m k).mpr hm))]
    simp

theorem mapSet_values {α β : Type} [DecidableEq α] (m : List (α × β))
    (k : α) (v : β) (P : β → Prop) (hm : ∀ p ∈ m, P p.2) (hv : P v) :
    ∀ p ∈ mapSet m k v, P p.2 := by
  intro p hp
  unfold mapSet at hp
  by_cases h : mapHas m k
  · rw [if_pos h] at hp
    obtain ⟨q, hq, rfl⟩ := List.mem_map.mp hp
    by_cases h2 : q.1 = k
    · simpa [h2] using hv
    · simpa [h2] using hm q hq
  · rw [if_neg h] at hp
    rcases List.mem_append.mp hp with h1 | h1
    · exact hm p h1
    · simp only [List.mem_singleton] at h1
      subst h1
      exact hv

theorem mapDelete_map_fst {α β : Type} [DecidableEq α] (m : List (α × β))
    (k : α) :
    (mapDelete m k).map Prod.fst
      = (m.map Prod.fst).filter (fun x => x ≠ k) := by
  induction m with
  | nil => rfl
  | cons p m ih =>
    by_cases h : p.1 = k
    · simp only [mapDelete, ne_eq, decide_not] at ih ⊢
      simp [List.filter_cons, h, ih]
    · simp only [mapDelete, ne_eq, decide_not] at ih ⊢
      simp [List.filter_cons, h, ih]

/-! ### Claim C5: `RoomState` count against the add/remove history -/

/-- Counterexample to C5 as stated: after `add("a", "")` and `remove("a")`,
the store still contains `"a"` (the falsy-name check makes `remove` a no-op on
an empty stored name), so `count()` is 1 while the reference "added and not
since removed" set is empty. -/
theorem c5_counterexample :
    roomCount (runRoomOps [RoomOp.add "a" "", RoomOp.remove "a"]) = 1 ∧
    (specCurrentIds [RoomOp.add "a" "", RoomOp.remove "a"]).length = 0 := by
  exact ⟨by decide, by decide⟩

/-- Claim C5 (amended): for every sequence of `add`/`remove` calls in which
every added display name is non-empty (the dispatcher guarantees this —
names are trimmed and rejected when empty), `count()` equals the number of
ids currently added and not since removed; `remove` of an absent id is a
no-op returning an absent result (unconditionally). -/
theorem c5_count_spec (ops : List RoomOp)
    (hops : ∀ op ∈ ops, opNameOk op = true) :
    roomCount (runRoomOps ops) = (specCurrentIds ops).length ∧
    (∀ room id, mapGet room id = none →
      roomRemove room id = (none, room)) := by
  constructor
  · have hkeys : ∀ (room : List (String × String)),
        (∀ op ∈ ops, opNameOk op = true) →
        (∀ p ∈ room, p.2 ≠ "") →
        ((ops.foldl roomStep room).map Prod.fst
            = ops.foldl specIdStep (room.map Prod.fst) ∧
         ∀ p ∈ ops.foldl roomStep room, p.2 ≠ "") := by
      clear hops
      induction ops with
      | nil => intro room _ hroom; exact ⟨rfl, hroom⟩
      | cons op rest ih =>
        intro room hops hroom
        simp only [List.foldl_cons]
        have hop : opNameOk op = true := hops op (List.mem_cons_self op rest)
        have hrest : ∀ o ∈ rest, opNameOk o = true :=
          fun o ho => hops o (List.mem_cons_of_mem _ ho)
        cases op with
        | add id name =>
          have hname : name ≠ "" := by simpa [opNameOk] using hop
          have hkeys1 : (roomStep room (.add id name)).map Prod.fst
              = specIdStep (room.map Prod.fst) (.add id name) := by
            simp only [roomStep, roomAdd, specIdStep]
            exact mapSet_map_fst room id name
          have hvals : ∀ p ∈ roomStep room (.add id name), p.2 ≠ "" := by
            simp only [roomStep, roomAdd]
            exact mapSet_values room id name (fun s => s ≠ "") hroom hname
          obtain ⟨ih1, ih2⟩ := ih (roomStep room (.add id name)) hrest hvals
          exact ⟨by rw [ih1, hkeys1], ih2⟩
        | remove id =>
          cases hget : mapGet room id with
          | none =>
            have hstep : roomStep room (.remove id) = room := by
              simp [roomStep, roomRemove, hget]
            have hspec : specIdStep (room.map Prod.fst) (.remove id)
                = room.map Prod.fst := by
              simp only [specIdStep]
              apply List.filter_eq_self.mpr
              intro a ha
              obtain ⟨p, hp, rfl⟩ := List.mem_map.mp ha
              have := (mapGet_eq_none_iff room id).mp hget p hp
              simpa using this
            rw [hstep, hspec]
            exact ih room hrest hroom
          | some name =>
            have hnm : name ≠ "" := hroom (id, name) (mapGet_eq_some_mem hget)
            have hstep : roomStep room (.remove id) = mapDelete room id := by
              simp [roomStep, roomRemove, hget, hnm]
            have hspec : specIdStep (room.map Prod.fst) (.remove id)
                = (room.map Prod.fst).filter (fun x => x ≠ id) := rfl
            have hvals : ∀ p ∈ mapDelete room id, p.2 ≠ "" :=
              fun p hp => hroom p (List.mem_filter.mp hp).1
            rw [hstep, hspec]
            obtain ⟨ih1, ih2⟩ := ih (mapDelete room id) hrest hvals
            exact ⟨by rw [ih1, mapDelete_map_fst], ih2⟩
    have h := (hkeys [] hops (by simp)).1
    have hlen := congrArg List.length h
    simpa [roomCount, runRoomOps, specCurrentIds] using hlen
  · intro room id hget
    simp [roomRemove, hget]

/-- Witness for C5 (amended): two adds and one remove with non-empty names. -/
theorem c5_count_spec_witness :
    (roomCount (runRoomOps
        [RoomOp.add "a" "Ann", RoomOp.add "b" "Bob", RoomOp.remove "a"])
      = (specCurrentIds
        [RoomOp.add "a" "Ann", RoomOp.add "b" "Bob", RoomOp.remove "a"]).length) ∧
    (∀ room id, mapGet room id = none → roomRemove room id = (none, room)) :=
  c5_count_spec
    [RoomOp.add "a" "Ann", RoomOp.add "b" "Bob", RoomOp.remove "a"]
    (by decide)

/-! ### Claim C1: media relay fan-out -/

/-- Counterexample to C1 as stated: sender `"a"` (joined, media-active) sends
a binary frame while `"b"` is joined but *not* media-active; the relay still
writes the packet to `"b"`'s socket — the fan-out loop iterates `clientsById`
without consulting `mediaById`. -/
theorem c1_counterexample :
    handleBinary ⟨true, 10, 1048576⟩
      ⟨[("a", "A"), ("b", "B")], [("a", 0), ("b", 1)],
       [(0, ⟨"a", "A"⟩), (1, ⟨"b", "B"⟩)], [("a", "audio/webm")]⟩
      (fun _ => true) 0 [7]
      = some [(1, [1, 1, 97, 7])] ∧
    mapHas [("a", "audio/webm")] "b" = false := by
  exact ⟨by decide, by decide⟩

/-- Claim C1 (amended): when a joined, media-active connection sends a
non-empty binary frame in `ws` mode and the framed packet does not exceed the
configured maximum message size, the relay writes the packet unmodified to
exactly those other connections that are in state JOINED (present in
`clientsById`) and write-ready — regardless of their `mediaActive` flag —
and never to the sender; writes to connections that are not write-ready are
skipped silently. -/
theorem c1_relay_targets (cfg : Config) (st : ServerState) (ready : Nat → Bool)
    (ws : Nat) (sender : Participant) (payload packet : List Nat)
    (hws : cfg.mediaTransportWs = true)
    (hsender : mapGet st.clientsBySocket ws = some sender)
    (hactive : mapHas st.mediaById sender.id = true)
    (hne : payload ≠ [])
    (hbuild : buildMediaPacket sender.id payload = some packet)
    (hsize : packet.length ≤ cfg.maxPayloadBytes)
    (hcoh : ∀ q ∈ st.clientsById, q.2 = ws → q.1 = sender.id) :
    ∃ sends, handleBinary cfg st ready ws payload = some sends ∧
      (∀ sock pkt, (sock, pkt) ∈ sends ↔
        (pkt = packet ∧ ready sock = true ∧
          ∃ pid, (pid, sock) ∈ st.clientsById ∧ pid ≠ sender.id)) ∧
      (∀ pkt, (ws, pkt) ∉ sends) := by
  have hsends : handleBinary cfg st ready ws payload
      = some ((st.clientsById.filter (fun p => p.1 ≠ sender.id)).flatMap
          (fun p => sendBinary ready p.2 packet)) := by
    unfold handleBinary
    rw [if_neg (by simp [hws]), hsender]
    simp only
    rw [if_neg (by simp [hactive]),
      if_neg (by simpa [List.length_eq_zero] using hne)]
    unfold broadcastMedia
    rw [hbuild]
    simp only
    rw [if_neg (by omega)]
  have hchar : ∀ sock pkt,
      ((sock, pkt) ∈ (st.clientsById.filter (fun p => p.1 ≠ sender.id)).flatMap
          (fun p => sendBinary ready p.2 packet) ↔
        (pkt = packet ∧ ready sock = true ∧
          ∃ pid, (pid, sock) ∈ st.clientsById ∧ pid ≠ sender.id)) := by
    intro sock pkt
    constructor
    · intro hmem
      obtain ⟨p, hp, hmem2⟩ := List.mem_flatMap.mp hmem
      obtain ⟨hpmem, hpne⟩ := List.mem_filter.mp hp
      by_cases hr : ready p.2 = true
      · unfold sendBinary at hmem2
        rw [if_pos hr] at hmem2
        simp only [List.mem_singleton, Prod.mk.injEq] at hmem2
        obtain ⟨h1, h2⟩ := hmem2
        subst h1
        refine ⟨h2, hr, p.1, ?_, by simpa using hpne⟩
        exact hpmem
      · unfold sendBinary at hmem2
        rw [if_neg hr] at hmem2
        exact absurd hmem2 (List.not_mem_nil _)
    · rintro ⟨rfl, hr, pid, hmem, hpne⟩
      apply List.mem_flatMap.mpr
      refine ⟨(pid, sock), List.mem_filter.mpr ⟨hmem, by simpa using hpne⟩, ?_⟩
      unfold sendBinary
      rw [if_pos hr]
      exact List.mem_singleton.mpr rfl
  refine ⟨_, hsends, hchar, ?_⟩
  intro pkt hmem
  obtain ⟨_, _, pid, hpid, hne2⟩ := (hchar ws pkt).mp hmem
  exact hne2 (hcoh (pid, ws) hpid rfl)

/-- Witness for C1 (amended): sender `"a"` on socket 0, peer `"b"` on socket
1 (also media-active), payload `[7]`, packet `[1, 1, 97, 7]`. -/
theorem c1_relay_targets_witness :
    ∃ sends, handleBinary ⟨true, 10, 1048576⟩
      ⟨[("a", "A"), ("b", "B")], [("a", 0), ("b", 1)],
       [(0, ⟨"a", "A"⟩), (1, ⟨"b", "B"⟩)],
       [("a", "audio/webm"), ("b", "audio/webm")]⟩
      (fun _ => true) 0 [7] = some sends ∧
      (∀ sock pkt, (sock, pkt) ∈ sends ↔
        (pkt = [1, 1, 97, 7] ∧ true = true ∧
          ∃ pid, (pid, sock) ∈ [("a", 0), ("b", 1)] ∧ pid ≠ "a")) ∧
      (∀ pkt, (0, pkt) ∉ sends) :=
  c1_relay_targets ⟨true, 10, 1048576⟩
    ⟨[("a", "A"), ("b", "B")], [("a", 0), ("b", 1)],
     [(0, ⟨"a", "A"⟩), (1, ⟨"b", "B"⟩)],
     [("a", "audio/webm"), ("b", "audio/webm")]⟩
    (fun _ => true) 0 ⟨"a", "A"⟩ [7] [1, 1, 97, 7]
    rfl (by decide) (by decide) (by decide) (by decide) (by decide) (by decide)

end Roomtone
